import Mathlib

/-!
Shallow embedding of the conversation-driver, error-classifier, extraction
and reporting logic of the collagent package (src/collagent/base.py,
src/collagent/core.py, src/collagent/openai_agent.py), together with
theorems settling the frozen claims about it.

Strings are modelled as lists of characters (`Str`).  Python float
comparisons of the form `len(text) < last * 0.3` are modelled by the exact
rational comparison `10 * len < 3 * last`; the two agree for all text
lengths below 10^15, far beyond any reachable string length.
Console output is modelled as a list of events carrying the rendered text
(rich markup tags are colour styling consumed by the console renderer).
Provider backends are modelled as scripts: lists of the responses or
exceptions that the successive API calls yield.
-/

abbrev Str := List Char

/-- Uppercase a string character by character (model of Python str.upper
for the ASCII stop token). -/
def strUpper (s : Str) : Str := s.map Char.toUpper

/-- Lowercase a string character by character (model of Python str.lower
used by the error classifier). -/
def strLower (s : Str) : Str := s.map Char.toLower

/-- Substring test: model of the Python `needle in hay` operator. -/
def strHasInfix (hay needle : Str) : Bool :=
  needle.isPrefixOf hay ||
    (match hay with
     | [] => false
     | _ :: t => strHasInfix t needle)

/-- Literal stop token checked by every research-mode driver. -/
def stopToken : Str := "SEARCH COMPLETE".data

/-- Model of the check `"SEARCH COMPLETE" in response_text.upper()`. -/
def containsStopToken (text : Str) : Bool :=
  strHasInfix (strUpper text) stopToken

/-- Model of `"\n\n".join(accumulated_text)`. -/
def joinNN (xs : List Str) : Str := List.intercalate ("\n\n".data) xs

/-- Model of the diminishing-returns guard
`last_response_length > 0 and len(response_text) < last_response_length * 0.3`
(exact-rational form of the float comparison, see the header note). -/
def diminished (textLen lastLen : Nat) : Prop :=
  0 < lastLen ∧ 10 * textLen < 3 * lastLen

instance (textLen lastLen : Nat) : Decidable (diminished textLen lastLen) := by
  unfold diminished; infer_instance

/-! ### Protocol A, Google implementation:
`CollAgentGoogle._run_grounded_search` (src/collagent/core.py 228-295).

One provider call either raises (classified fatal or transient by
`_handle_api_error`) or returns a response; `text` is what
`get_response_text` extracts from it and `hasContent` is the truthiness of
`response.candidates and response.candidates[0].content` used by the
continuation step. -/

/-- Outcome of one `client.models.generate_content` call inside the
grounded-search loop. -/
inductive GResp where
  | err (fatal : Bool)
  | ok (text : Str) (hasContent : Bool)
deriving DecidableEq

/-- Observable result of one grounded-search driver invocation:
the returned string, the number of provider calls made, how many of those
calls yielded text (text turns), and whether a fatal abort happened. -/
structure GResult where
  output : Str
  calls : Nat
  textTurns : Nat
  fatal : Bool
deriving DecidableEq

/-- Loop body of `_run_grounded_search`: `fuel` is the number of remaining
turns (`while turn < max_turns`), `acc` the accumulated text list,
`lastLen` the `last_response_length` variable.  An exhausted script ends
the loop with the text accumulated so far. -/
def runGroundedAux : List GResp → Nat → List Str → Nat → Nat → Nat → GResult
  | _, 0, acc, _, calls, tt => ⟨joinNN acc, calls, tt, false⟩
  | [], _ + 1, acc, _, calls, tt => ⟨joinNN acc, calls, tt, false⟩
  | .err fatal :: _, _ + 1, acc, _, calls, tt =>
      if fatal then ⟨[], calls + 1, tt, true⟩
      else ⟨joinNN acc, calls + 1, tt, false⟩
  | .ok text hasContent :: rest, n + 1, acc, lastLen, calls, tt =>
      if text = [] then
        if hasContent then runGroundedAux rest n acc lastLen (calls + 1) tt
        else ⟨joinNN acc, calls + 1, tt, false⟩
      else
        if containsStopToken text then
          ⟨joinNN (acc ++ [text]), calls + 1, tt + 1, false⟩
        else if diminished text.length lastLen then
          ⟨joinNN (acc ++ [text]), calls + 1, tt + 1, false⟩
        else if hasContent then
          runGroundedAux rest n (acc ++ [text]) text.length (calls + 1) (tt + 1)
        else
          ⟨joinNN (acc ++ [text]), calls + 1, tt + 1, false⟩

/-- Model of `CollAgentGoogle._run_grounded_search` driven by a response
script. -/
def runGroundedSearch (script : List GResp) (maxTurns : Nat) : GResult :=
  runGroundedAux script maxTurns [] 0 0 0

/-! ### Protocol A, OpenAI implementation:
`CollAgentOpenAI._run_web_search` (src/collagent/openai_agent.py 48-115).
Same stop conditions; the conversation is continued through
`previous_response_id`, and an empty-text response breaks the loop as soon
as any text has been accumulated. -/

/-- Outcome of one `client.responses.create` call inside the web-search
loop. -/
inductive WResp where
  | err (fatal : Bool)
  | ok (text : Str)
deriving DecidableEq

/-- Loop body of `_run_web_search` (`for turn in range(1, max_turns + 1)`). -/
def runWebSearchAux : List WResp → Nat → List Str → Nat → Nat → Nat → GResult
  | _, 0, acc, _, calls, tt => ⟨joinNN acc, calls, tt, false⟩
  | [], _ + 1, acc, _, calls, tt => ⟨joinNN acc, calls, tt, false⟩
  | .err fatal :: _, _ + 1, acc, _, calls, tt =>
      if fatal then ⟨[], calls + 1, tt, true⟩
      else ⟨joinNN acc, calls + 1, tt, false⟩
  | .ok text :: rest, n + 1, acc, lastLen, calls, tt =>
      if text = [] then
        if acc = [] then runWebSearchAux rest n acc lastLen (calls + 1) tt
        else ⟨joinNN acc, calls + 1, tt, false⟩
      else
        if containsStopToken text then
          ⟨joinNN (acc ++ [text]), calls + 1, tt + 1, false⟩
        else if diminished text.length lastLen then
          ⟨joinNN (acc ++ [text]), calls + 1, tt + 1, false⟩
        else
          runWebSearchAux rest n (acc ++ [text]) text.length (calls + 1) (tt + 1)

/-- Model of `CollAgentOpenAI._run_web_search` driven by a response
script. -/
def runWebSearch (script : List WResp) (maxTurns : Nat) : GResult :=
  runWebSearchAux script maxTurns [] 0 0 0

/-! ### Protocol B: `CollAgentGoogle._run_tool_based_search_genai`
(src/collagent/core.py 75-226).  The LLM requests searches through
`web_search` function calls; a response carries text and a list of
function calls (here the list of called function names, since executing a
search never changes driver state).  Two counters are kept: `text_turns`,
bounded by `max_turns`, and `search_rounds`, bounded by
`max_turns * 3`.  `CollAgentBase._run_tool_based_search`
(src/collagent/base.py 201-367) keeps the identical counter logic for the
Chat Completions transport. -/

/-- Outcome of one provider call inside the tool-based-search loop. -/
inductive TResp where
  | err (fatal : Bool)
  | ok (text : Str) (funcCalls : List Str)
deriving DecidableEq

/-- Observable result of one tool-based-search driver invocation. -/
structure TResult where
  output : Str
  textTurns : Nat
  searchRounds : Nat
  calls : Nat
  fatal : Bool
deriving DecidableEq

/-- Post-loop synthesis step of `_run_tool_based_search_genai`: if searches
were performed but no text was accumulated, one final no-tools call is
made and its text (if any) appended; a failure there is swallowed. -/
def toolSynthesis (script : List TResp) (acc : List Str) (didSearch : Bool)
    (tt sr calls : Nat) : TResult :=
  if acc = [] ∧ didSearch then
    match script with
    | [] => ⟨joinNN acc, tt, sr, calls, false⟩
    | .err _ :: _ => ⟨joinNN acc, tt, sr, calls + 1, false⟩
    | .ok text _ :: _ =>
        ⟨joinNN (if text = [] then acc else acc ++ [text]), tt, sr, calls + 1, false⟩
  else ⟨joinNN acc, tt, sr, calls, false⟩

/-- Loop of `_run_tool_based_search_genai`
(`while text_turns < max_turns and search_rounds < max_search_rounds`).
A response with function calls counts one search round and never a text
turn; only a pure text response counts a text turn.  An exhausted script
ends the loop. -/
def runToolAux (maxTurns : Nat) (script : List TResp) (tt sr : Nat)
    (acc : List Str) (lastLen : Nat) (didSearch : Bool) (calls : Nat) : TResult :=
    if tt < maxTurns ∧ sr < maxTurns * 3 then
      match script with
      | [] => toolSynthesis [] acc didSearch tt sr calls
      | .err fatal :: rest =>
          if fatal then ⟨[], tt, sr, calls + 1, true⟩
          else toolSynthesis rest acc didSearch tt sr (calls + 1)
      | .ok text fcs :: rest =>
          let acc2 := if text = [] then acc else acc ++ [text]
          if fcs ≠ [] then
            runToolAux maxTurns rest tt (sr + 1) acc2 lastLen true (calls + 1)
          else if text ≠ [] then
            if containsStopToken text then
              toolSynthesis rest acc2 didSearch (tt + 1) sr (calls + 1)
            else if diminished text.length lastLen then
              toolSynthesis rest acc2 didSearch (tt + 1) sr (calls + 1)
            else
              runToolAux maxTurns rest (tt + 1) sr acc2 text.length didSearch (calls + 1)
          else
            if acc2 ≠ [] then toolSynthesis rest acc2 didSearch tt sr (calls + 1)
            else runToolAux maxTurns rest tt sr acc2 lastLen didSearch (calls + 1)
    else toolSynthesis script acc didSearch tt sr calls

/-- Model of `_run_tool_based_search_genai` driven by a response script. -/
def runToolBasedSearchGenai (script : List TResp) (maxTurns : Nat) : TResult :=
  runToolAux maxTurns script 0 0 [] 0 false 0

/-! ### Error classifier: `CollAgentBase.FATAL_ERROR_PATTERNS` and
`CollAgentBase._handle_api_error` (src/collagent/base.py 127-177). -/

/-- One entry of the fatal-pattern table: substring pattern, user message,
optional help URL. -/
structure FatalPattern where
  pattern : Str
  message : Str
  helpUrl : Option Str
deriving DecidableEq

/-- Model of `CollAgentBase.FATAL_ERROR_PATTERNS`, in Python dict insertion
order (dict iteration preserves it). -/
def fatalErrorTable : List FatalPattern :=
  [⟨"insufficient_quota".data, "API quota exceeded".data,
      some "https://platform.openai.com/account/billing".data⟩,
   ⟨"invalid_api_key".data, "Invalid API key".data,
      some "https://platform.openai.com/api-keys".data⟩,
   ⟨"rate_limit_exceeded".data, "Rate limit exceeded".data, none⟩,
   ⟨"RESOURCE_EXHAUSTED".data, "API quota exhausted".data,
      some "https://console.cloud.google.com/billing".data⟩,
   ⟨"INVALID_ARGUMENT".data, "Invalid API configuration".data, none⟩,
   ⟨"PERMISSION_DENIED".data, "API permission denied".data, none⟩,
   ⟨"UNAUTHENTICATED".data, "Invalid API key".data,
      some "https://aistudio.google.com/apikey".data⟩,
   ⟨"401".data, "Authentication failed - check your API key".data, none⟩,
   ⟨"403".data, "Access forbidden - check API permissions".data, none⟩,
   ⟨"429".data, "Too many requests - quota or rate limit exceeded".data, none⟩]

/-- Case-insensitive match of one table entry against the exception string:
`pattern.lower() in error_str.lower()`. -/
def patternMatches (errStr : Str) (p : FatalPattern) : Bool :=
  strHasInfix (strLower errStr) (strLower p.pattern)

/-- Scan of the for loop in `_handle_api_error`: first matching entry
wins. -/
def scanFatalTable (errStr : Str) : List FatalPattern → Option FatalPattern
  | [] => none
  | p :: ps => if patternMatches errStr p then some p else scanFatalTable errStr ps

/-- Console output events, carrying rendered text. -/
inductive ConsoleEvent where
  | fatalModal (message : Str) (errorCode : Str) (helpUrl : Option Str)
  | line (text : Str)
deriving DecidableEq

/-- Model of `CollAgentBase._handle_api_error`: returns whether the error
was classified fatal together with the console events emitted.
`supportsFatal` models `hasattr(self.console, 'fatal_error')`. -/
def handleApiError (supportsFatal : Bool) (errStr ctx : Str) :
    Bool × List ConsoleEvent :=
  match scanFatalTable errStr fatalErrorTable with
  | some p =>
      if supportsFatal then
        (true, [.fatalModal (p.message ++ "\n\n".data ++ errStr) p.pattern p.helpUrl])
      else
        (true, [.line p.message, .line errStr] ++
          (match p.helpUrl with
           | some u => [.line ("More info: ".data ++ u)]
           | none => []))
  | none => (false, [.line ("API Error in ".data ++ ctx ++ ": ".data ++ errStr)])

/-! ### Protocol C, the extraction loop:
`CollAgentBase._run_chat_completions_extraction`
(src/collagent/base.py 369-483).  `CollAgentGoogle._run_extraction_loop`
(src/collagent/core.py 297-390), `CollAgentBase._run_genai_extraction`
(base.py 485-625) and `CollAgentOpenAI._run_extraction_loop`
(openai_agent.py 117-244) run the same save/finish state machine over
other transports.

A tool call is a function name plus decoded arguments; `none` arguments
model an empty or undecodable JSON payload, which the source coerces to
the empty object. -/

/-- One tool call of an extraction response. -/
structure ECall (α : Type) where
  name : Str
  args : Option α
deriving DecidableEq

/-- Outcome of one provider call inside the extraction loop. -/
inductive EResp (α : Type) where
  | err (fatal : Bool)
  | ok (toolCalls : List (ECall α))
deriving DecidableEq

/-- Name of the synthetic finish tool added beside the save tool. -/
def finishToolName : Str := "finish_extraction".data

/-- Decoded arguments of a tool call
(`json.loads(...)` with failure or emptiness coerced to `{}`). -/
def decodeArgs (emptyObj : α) (tc : ECall α) : α := tc.args.getD emptyObj

/-- Inner for loop over one round of tool calls: a call named `saveName`
invokes the save callback (modelled as a state transformer `cb`) and is
appended to `items`; a call named `finish_extraction` sets the finished
flag; any other name only gets an Unknown acknowledgement. -/
def processRound (saveName : Str) (emptyObj : α) (cb : α → σ → σ) :
    List (ECall α) → σ → List α → Bool → σ × List α × Bool
  | [], st, items, finished => (st, items, finished)
  | tc :: rest, st, items, finished =>
      let a := decodeArgs emptyObj tc
      if tc.name = saveName then
        processRound saveName emptyObj cb rest (cb a st) (items ++ [a]) finished
      else if tc.name = finishToolName then
        processRound saveName emptyObj cb rest st items true
      else
        processRound saveName emptyObj cb rest st items finished

/-- Outer loop of `_run_chat_completions_extraction`
(`for turn in range(max_turns)`): stops on an error (fatal or transient:
both return the items saved so far), on a round with no tool calls, or
after a round whose finished flag is set. -/
def runExtractionAux (saveName : Str) (emptyObj : α) (cb : α → σ → σ) :
    List (EResp α) → Nat → σ → List α → σ × List α
  | _, 0, st, items => (st, items)
  | [], _ + 1, st, items => (st, items)
  | .err _ :: _, _ + 1, st, items => (st, items)
  | .ok [] :: _, _ + 1, st, items => (st, items)
  | .ok (tc0 :: tcs) :: rest, n + 1, st, items =>
      match processRound saveName emptyObj cb (tc0 :: tcs) st items false with
      | (st2, items2, finished) =>
        if finished then (st2, items2)
        else runExtractionAux saveName emptyObj cb rest n st2 items2

/-- Model of `_run_chat_completions_extraction` driven by a response
script: returns the final callback state and the items list. -/
def runChatCompletionsExtraction (saveName : Str) (emptyObj : α)
    (cb : α → σ → σ) (script : List (EResp α)) (maxTurns : Nat) (st : σ) :
    σ × List α :=
  runExtractionAux saveName emptyObj cb script maxTurns st []

/-- Specification-side view (for the extraction-callback refinement claim):
the tool calls the loop processes.  A round containing a finish call (one
whose name is not the save name but is `finish_extraction`) is processed in
full and is the last round. -/
def processedCalls (saveName : Str) : List (EResp α) → Nat → List (ECall α)
  | _, 0 => []
  | [], _ + 1 => []
  | .err _ :: _, _ + 1 => []
  | .ok [] :: _, _ + 1 => []
  | .ok (tc0 :: tcs) :: rest, n + 1 =>
      if (tc0 :: tcs).any
          (fun tc => decide (¬ tc.name = saveName ∧ tc.name = finishToolName)) then
        tc0 :: tcs
      else (tc0 :: tcs) ++ processedCalls saveName rest n

/-- Specification-side view: the decoded arguments of the processed calls
whose name is the save name, in call order. -/
def savedArgs (saveName : Str) (emptyObj : α) (script : List (EResp α))
    (maxTurns : Nat) : List α :=
  ((processedCalls saveName script maxTurns).filter
      (fun tc => decide (tc.name = saveName))).map (decodeArgs emptyObj)

/-! ### Collaborator records, reporting and the two-phase search.

A collaborator record keeps the fields presentation depends on; the
alignment score is `none` when the `alignment_score` key is absent, and
every read goes through `c.get("alignment_score", 0)`, modelled by
`scoreOf`. -/

/-- Collaborator record (projection onto the fields presentation uses). -/
structure Collab where
  name : Str
  institution : Str
  alignmentScore : Option Nat
deriving DecidableEq

/-- Model of `c.get("alignment_score", 0)`. -/
def scoreOf (c : Collab) : Nat := c.alignmentScore.getD 0

/-- Sort relation of `sorted(..., key=lambda x: x.get("alignment_score", 0),
reverse=True)`: a stable sort under this relation keeps equal-score records
in insertion order, exactly as the Python stable sort does. -/
def collabGE (a b : Collab) : Prop := scoreOf b ≤ scoreOf a

instance : DecidableRel collabGE := fun a b => by
  unfold collabGE; infer_instance

instance : IsTotal Collab collabGE :=
  ⟨fun a b => le_total (scoreOf b) (scoreOf a)⟩

instance : IsTrans Collab collabGE :=
  ⟨fun _ _ _ hab hbc => le_trans hbc hab⟩

/-- Model of `sorted(self.collaborators, key=..., reverse=True)` in
`generate_report` (core.py 930-934, openai_agent.py 711-715) and
`print_shortlist` (base.py 633-637): stable descending sort by score. -/
def sortedCollabs (l : List Collab) : List Collab :=
  List.insertionSort collabGE l

/-- Institution keys in order of first appearance in the sorted list:
model of building the `by_institution` dict (core.py 969-975). -/
def groupKeys (l : List Collab) : List Str :=
  l.foldl (fun ks c => if c.institution ∈ ks then ks else ks ++ [c.institution]) []

/-- Order in which `generate_report` presents collaborator records
(core.py 924-1047): flat sorted order when `searched_institutions` is
empty, otherwise sorted order grouped by institution, groups in
first-appearance order.  `insts` models `self.searched_institutions`
(only its emptiness and names matter for the order). -/
def reportOrder (insts : List Str) (collabs : List Collab) : List Collab :=
  let s := sortedCollabs collabs
  if insts = [] then s
  else ((groupKeys s).map
    (fun k => s.filter (fun c => decide (c.institution = k)))).flatten

/-- Star rendering `"★" * score + "☆" * (5 - score)` used by
`generate_report` and `print_shortlist`. -/
def starsFor (score : Nat) : Str :=
  List.replicate score '★' ++ List.replicate (5 - score) '☆'

/-- Rows of the `print_shortlist` table (base.py 627-666): sorted
descending by score, truncated to `topN`. -/
def shortlistRows (l : List Collab) (topN : Nat) : List Collab :=
  (sortedCollabs l).take topN

/-! ### The two-phase `search` entry point: `CollAgentGoogle.search`
(core.py 885-922) with `CollAgentOpenAI.search` (openai_agent.py 667-704)
structurally identical.

Phase 1 research is the grounded-search driver with budget
`max_turns // 2` (the default configuration: no external search tool).
Phase 2 extraction runs the extraction loop, whose save callback
`on_save_collaborator` appends the decoded arguments to the shared
`self.collaborators` collection under the lock; `phase2_extract` then
returns `self.collaborators`, the full shared collection.  If phase 1
yields no text, `search` returns `[]` without running phase 2. -/

/-- Collaborator carried by a JSON payload that failed to decode: the
empty object (all keys absent). -/
def emptyCollab : Collab := ⟨[], [], none⟩

/-- Save-function name used by phase-2 extraction. -/
def saveCollaboratorName : Str := "save_collaborator".data

/-- Model of `phase2_extract` (core.py 446-608): runs the extraction loop
with the append-to-shared-collection callback (default extraction
`max_turns` of 5) and returns the full shared collection. -/
def phase2Extract (escript : List (EResp Collab)) (collabs : List Collab) :
    List Collab :=
  (runChatCompletionsExtraction saveCollaboratorName emptyCollab
    (fun a l => l ++ [a]) escript 5 collabs).1

/-- Result of one `search` call: the shared collection afterwards, and the
list the call returned. -/
structure SearchOutcome where
  shared : List Collab
  returned : List Collab
deriving DecidableEq

/-- Model of `CollAgentGoogle.search`: phase 1 via the grounded-search
driver with budget `maxTurns / 2`, early `[]` return on empty research
text, phase 2 extraction appending to the shared collection, whose full
contents are returned. -/
def searchModel (collabs : List Collab) (gscript : List GResp)
    (escript : List (EResp Collab)) (maxTurns : Nat) : SearchOutcome :=
  let researchText := (runGroundedSearch gscript (maxTurns / 2)).output
  if researchText = [] then ⟨collabs, []⟩
  else
    let shared := phase2Extract escript collabs
    ⟨shared, shared⟩

/-! ### Helper lemmas. -/

theorem joinNN_singleton (t : Str) : joinNN [t] = t := by
  simp [joinNN, List.intercalate]

theorem joinNN_pair (a b : Str) : joinNN [a, b] = a ++ "\n\n".data ++ b := by
  simp [joinNN, List.intercalate, List.intersperse]

theorem runGroundedAux_cons_stop {t : Str} (hc : Bool) (rest : List GResp)
    (n : Nat) (acc : List Str) (ll calls tt : Nat)
    (ht : ¬ t = []) (hs : containsStopToken t = true) :
    runGroundedAux (GResp.ok t hc :: rest) (n + 1) acc ll calls tt =
      ⟨joinNN (acc ++ [t]), calls + 1, tt + 1, false⟩ := by
  simp [runGroundedAux, ht, hs]

theorem runGroundedAux_cons_dim {t : Str} (hc : Bool) (rest : List GResp)
    (n : Nat) (acc : List Str) (ll calls tt : Nat)
    (ht : ¬ t = []) (hs : containsStopToken t = false)
    (hd : diminished t.length ll) :
    runGroundedAux (GResp.ok t hc :: rest) (n + 1) acc ll calls tt =
      ⟨joinNN (acc ++ [t]), calls + 1, tt + 1, false⟩ := by
  simp [runGroundedAux, ht, hs, hd]

theorem runGroundedAux_cons_next {t : Str} (rest : List GResp)
    (n : Nat) (acc : List Str) (ll calls tt : Nat)
    (ht : ¬ t = []) (hs : containsStopToken t = false)
    (hd : ¬ diminished t.length ll) :
    runGroundedAux (GResp.ok t true :: rest) (n + 1) acc ll calls tt =
      runGroundedAux rest n (acc ++ [t]) t.length (calls + 1) (tt + 1) := by
  simp [runGroundedAux, ht, hs, hd]

theorem runGroundedAux_cons_err (fatal : Bool) (rest : List GResp)
    (n : Nat) (acc : List Str) (ll calls tt : Nat) :
    runGroundedAux (GResp.err fatal :: rest) (n + 1) acc ll calls tt =
      if fatal then ⟨[], calls + 1, tt, true⟩
      else ⟨joinNN acc, calls + 1, tt, false⟩ := by
  simp [runGroundedAux]

theorem runGroundedAux_bounds : ∀ (script : List GResp) (n : Nat)
    (acc : List Str) (ll calls tt : Nat),
    (runGroundedAux script n acc ll calls tt).calls ≤ calls + n ∧
    (runGroundedAux script n acc ll calls tt).textTurns ≤ tt + n := by
  intro script
  induction script with
  | nil =>
    intro n acc ll calls tt
    cases n <;> simp [runGroundedAux]
  | cons r rest ih =>
    intro n acc ll calls tt
    cases n with
    | zero => simp [runGroundedAux]
    | succ n =>
      cases r with
      | err fatal =>
        cases fatal <;> simp [runGroundedAux]
      | ok text hasContent =>
        by_cases ht : text = []
        · subst ht
          cases hasContent with
          | false => simp [runGroundedAux]
          | true =>
            simp [runGroundedAux]
            have h := ih n acc ll (calls + 1) tt
            omega
        · by_cases hs : containsStopToken text = true
          · rw [runGroundedAux_cons_stop _ _ _ _ _ _ _ ht hs]; simp
          · rw [Bool.not_eq_true] at hs
            by_cases hd : diminished text.length ll
            · rw [runGroundedAux_cons_dim _ _ _ _ _ _ _ ht hs hd]; simp
            · cases hasContent with
              | false => simp [runGroundedAux, ht, hs, hd]
              | true =>
                rw [runGroundedAux_cons_next _ _ _ _ _ _ ht hs hd]
                have h := ih n (acc ++ [text]) text.length (calls + 1) (tt + 1)
                omega

theorem runGroundedAux_fatal_output : ∀ (script : List GResp) (n : Nat)
    (acc : List Str) (ll calls tt : Nat),
    (runGroundedAux script n acc ll calls tt).fatal = true →
    (runGroundedAux script n acc ll calls tt).output = [] := by
  intro script
  induction script with
  | nil =>
    intro n acc ll calls tt h
    cases n <;> simp [runGroundedAux] at h
  | cons r rest ih =>
    intro n acc ll calls tt h
    cases n with
    | zero => simp [runGroundedAux] at h
    | succ n =>
      cases r with
      | err fatal =>
        cases fatal with
        | false => simp [runGroundedAux] at h
        | true => simp [runGroundedAux]
      | ok text hasContent =>
        by_cases ht : text = []
        · subst ht
          cases hasContent with
          | false => simp [runGroundedAux] at h
          | true =>
            simp only [runGroundedAux] at h ⊢
            simp only [if_pos rfl, if_true] at h ⊢
            exact ih n acc ll (calls + 1) tt h
        · by_cases hs : containsStopToken text = true
          · rw [runGroundedAux_cons_stop _ _ _ _ _ _ _ ht hs] at h
            simp at h
          · rw [Bool.not_eq_true] at hs
            by_cases hd : diminished text.length ll
            · rw [runGroundedAux_cons_dim _ _ _ _ _ _ _ ht hs hd] at h
              simp at h
            · cases hasContent with
              | false => simp [runGroundedAux, ht, hs, hd] at h
              | true =>
                rw [runGroundedAux_cons_next _ _ _ _ _ _ ht hs hd] at h ⊢
                exact ih n (acc ++ [text]) text.length (calls + 1) (tt + 1) h

theorem runWebSearchAux_cons_stop {t : Str} (rest : List WResp)
    (n : Nat) (acc : List Str) (ll calls tt : Nat)
    (ht : ¬ t = []) (hs : containsStopToken t = true) :
    runWebSearchAux (WResp.ok t :: rest) (n + 1) acc ll calls tt =
      ⟨joinNN (acc ++ [t]), calls + 1, tt + 1, false⟩ := by
  simp [runWebSearchAux, ht, hs]

theorem runWebSearchAux_cons_next {t : Str} (rest : List WResp)
    (n : Nat) (acc : List Str) (ll calls tt : Nat)
    (ht : ¬ t = []) (hs : containsStopToken t = false)
    (hd : ¬ diminished t.length ll) :
    runWebSearchAux (WResp.ok t :: rest) (n + 1) acc ll calls tt =
      runWebSearchAux rest n (acc ++ [t]) t.length (calls + 1) (tt + 1) := by
  simp [runWebSearchAux, ht, hs, hd]

theorem runWebSearchAux_bounds : ∀ (script : List WResp) (n : Nat)
    (acc : List Str) (ll calls tt : Nat),
    (runWebSearchAux script n acc ll calls tt).calls ≤ calls + n ∧
    (runWebSearchAux script n acc ll calls tt).textTurns ≤ tt + n := by
  intro script
  induction script with
  | nil =>
    intro n acc ll calls tt
    cases n <;> simp [runWebSearchAux]
  | cons r rest ih =>
    intro n acc ll calls tt
    cases n with
    | zero => simp [runWebSearchAux]
    | succ n =>
      cases r with
      | err fatal =>
        cases fatal <;> simp [runWebSearchAux]
      | ok text =>
        by_cases ht : text = []
        · subst ht
          by_cases ha : acc = []
          · subst ha
            simp [runWebSearchAux]
            have h := ih n [] ll (calls + 1) tt
            omega
          · simp [runWebSearchAux, ha]
        · by_cases hs : containsStopToken text = true
          · rw [runWebSearchAux_cons_stop _ _ _ _ _ _ ht hs]; simp
          · rw [Bool.not_eq_true] at hs
            by_cases hd : diminished text.length ll
            · simp [runWebSearchAux, ht, hs, hd]
            · rw [runWebSearchAux_cons_next _ _ _ _ _ _ ht hs hd]
              have h := ih n (acc ++ [text]) text.length (calls + 1) (tt + 1)
              omega

theorem runWebSearchAux_fatal_output : ∀ (script : List WResp) (n : Nat)
    (acc : List Str) (ll calls tt : Nat),
    (runWebSearchAux script n acc ll calls tt).fatal = true →
    (runWebSearchAux script n acc ll calls tt).output = [] := by
  intro script
  induction script with
  | nil =>
    intro n acc ll calls tt h
    cases n <;> simp [runWebSearchAux] at h
  | cons r rest ih =>
    intro n acc ll calls tt h
    cases n with
    | zero => simp [runWebSearchAux] at h
    | succ n =>
      cases r with
      | err fatal =>
        cases fatal with
        | false => simp [runWebSearchAux] at h
        | true => simp [runWebSearchAux]
      | ok text =>
        by_cases ht : text = []
        · subst ht
          by_cases ha : acc = []
          · simp only [runWebSearchAux, if_pos rfl, if_pos ha] at h ⊢
            exact ih n acc ll (calls + 1) tt h
          · simp [runWebSearchAux, ha] at h
        · by_cases hs : containsStopToken text = true
          · rw [runWebSearchAux_cons_stop _ _ _ _ _ _ ht hs] at h
            simp at h
          · rw [Bool.not_eq_true] at hs
            by_cases hd : diminished text.length ll
            · simp [runWebSearchAux, ht, hs, hd] at h
            · rw [runWebSearchAux_cons_next _ _ _ _ _ _ ht hs hd] at h ⊢
              exact ih n (acc ++ [text]) text.length (calls + 1) (tt + 1) h

/-! ### Claim theorems. -/

/-- C1, counterexample.  The claim says a grounded-search driver hit by a
classified-fatal error on a later call still returns the text accumulated
by earlier successful calls.  In the code (`core.py` 257-260,
`openai_agent.py` 84-87) the fatal branch executes `return ""`: with a
first call that accumulated text and a second call raising a fatal error,
the driver returns the empty string, not the accumulated text. -/
theorem fatal_error_discards_earlier_text_cex :
    (runGroundedSearch [GResp.ok "Found two researchers at LUT University".data true,
        GResp.err true] 5).fatal = true ∧
    (runGroundedSearch [GResp.ok "Found two researchers at LUT University".data true,
        GResp.err true] 5).output = [] ∧
    "Found two researchers at LUT University".data ≠ ([] : Str) := by
  refine ⟨by decide, by decide, by decide⟩

/-- C1, amended.  On a classified-fatal provider error both Protocol A
drivers return the empty string, discarding all accumulated text including
the text of earlier successful calls; only a transient (non-fatal) error
breaks the loop while keeping the accumulated text, as the third conjunct
shows for a successful first call followed by a transient failure. -/
theorem fatal_error_returns_empty_output (gscript : List GResp)
    (wscript : List WResp) (mt : Nat) :
    ((runGroundedSearch gscript mt).fatal = true →
      (runGroundedSearch gscript mt).output = []) ∧
    ((runWebSearch wscript mt).fatal = true →
      (runWebSearch wscript mt).output = []) ∧
    (∀ (t : Str) (rest : List GResp), 2 ≤ mt → ¬ t = [] →
      containsStopToken t = false →
      (runGroundedSearch (GResp.ok t true :: GResp.err false :: rest) mt).output = t) := by
  refine ⟨runGroundedAux_fatal_output gscript mt [] 0 0 0,
    runWebSearchAux_fatal_output wscript mt [] 0 0 0, ?_⟩
  intro t rest hmt ht hs
  obtain ⟨m, rfl⟩ : ∃ m, mt = m + 2 := ⟨mt - 2, by omega⟩
  unfold runGroundedSearch
  rw [runGroundedAux_cons_next _ _ _ _ _ _ ht hs (by simp [diminished])]
  rw [runGroundedAux_cons_err]
  simp [joinNN_singleton]

/-- C1, witness for the amended theorem. -/
theorem fatal_error_returns_empty_output_witness :
    (runGroundedSearch [GResp.err true] 3).output = [] ∧
    (runGroundedSearch [GResp.ok "partial findings".data true, GResp.err false] 4).output =
      "partial findings".data :=
  ⟨(fatal_error_returns_empty_output [GResp.err true] [] 3).1 (by decide),
   (fatal_error_returns_empty_output
      [GResp.ok "partial findings".data true, GResp.err false] [] 4).2.2
      "partial findings".data [] (by decide) (by decide) (by decide)⟩

/-- C4.  If the first provider call of a research-mode driver returns text
containing the stop token (in any letter case, via the uppercase check),
the driver stops after exactly one provider call and returns exactly that
text, for both Protocol A implementations. -/
theorem stop_token_single_call {t : Str} (hc : Bool) (grest : List GResp)
    (wrest : List WResp) (mt : Nat) (h1 : 1 ≤ mt) (ht : ¬ t = [])
    (hs : containsStopToken t = true) :
    runGroundedSearch (GResp.ok t hc :: grest) mt = ⟨t, 1, 1, false⟩ ∧
    runWebSearch (WResp.ok t :: wrest) mt = ⟨t, 1, 1, false⟩ := by
  obtain ⟨m, rfl⟩ : ∃ m, mt = m + 1 := ⟨mt - 1, by omega⟩
  constructor
  · unfold runGroundedSearch
    rw [runGroundedAux_cons_stop hc grest m [] 0 0 0 ht hs]
    simp [joinNN_singleton]
  · unfold runWebSearch
    rw [runWebSearchAux_cons_stop wrest m [] 0 0 0 ht hs]
    simp [joinNN_singleton]

/-- C4, witness: a lower-case stop token on the first turn. -/
theorem stop_token_single_call_witness :
    runGroundedSearch [GResp.ok "All done. Search complete".data false] 5 =
      ⟨"All done. Search complete".data, 1, 1, false⟩ ∧
    runWebSearch [WResp.ok "All done. Search complete".data] 5 =
      ⟨"All done. Search complete".data, 1, 1, false⟩ :=
  stop_token_single_call false [] [] 5 (by decide) (by decide) (by decide)

/-- C5.  Diminishing returns: a text turn that is not the first and whose
text is shorter than 0.3 times the previous text-turn length (and carries
no stop token) stops the grounded-search driver right after that turn
(first conjunct, at any loop state); in particular a run with two mocked
responses whose lengths have ratio below 0.3 stops after the second turn
and returns the two texts joined (second conjunct). -/
theorem diminishing_returns_stops_driver :
    (∀ (t : Str) (hc : Bool) (rest : List GResp) (n : Nat) (acc : List Str)
        (ll calls tt : Nat), ¬ t = [] → containsStopToken t = false →
        diminished t.length ll →
        runGroundedAux (GResp.ok t hc :: rest) (n + 1) acc ll calls tt =
          ⟨joinNN (acc ++ [t]), calls + 1, tt + 1, false⟩) ∧
    (∀ (t1 t2 : Str) (hc2 : Bool) (rest : List GResp) (mt : Nat),
        2 ≤ mt → ¬ t1 = [] → ¬ t2 = [] →
        containsStopToken t1 = false → containsStopToken t2 = false →
        10 * t2.length < 3 * t1.length →
        runGroundedSearch (GResp.ok t1 true :: GResp.ok t2 hc2 :: rest) mt =
          ⟨t1 ++ "\n\n".data ++ t2, 2, 2, false⟩) := by
  constructor
  · intro t hc rest n acc ll calls tt ht hs hd
    exact runGroundedAux_cons_dim hc rest n acc ll calls tt ht hs hd
  · intro t1 t2 hc2 rest mt hmt ht1 ht2 hs1 hs2 hlen
    obtain ⟨m, rfl⟩ : ∃ m, mt = m + 2 := ⟨mt - 2, by omega⟩
    unfold runGroundedSearch
    rw [runGroundedAux_cons_next _ _ _ _ _ _ ht1 hs1 (by simp [diminished])]
    simp only [List.nil_append, Nat.zero_add]
    rw [runGroundedAux_cons_dim hc2 rest m [t1] t1.length 1 1 ht2 hs2
      ⟨List.length_pos.mpr ht1, hlen⟩]
    simp [joinNN_pair]

set_option maxRecDepth 40000 in
/-- C5, witness: mocked response lengths 1000 then 200 (ratio 0.2). -/
theorem diminishing_returns_stops_driver_witness :
    runGroundedSearch [GResp.ok (List.replicate 1000 'a') true,
        GResp.ok (List.replicate 200 'b') false] 5 =
      ⟨List.replicate 1000 'a' ++ "\n\n".data ++ List.replicate 200 'b', 2, 2, false⟩ :=
  diminishing_returns_stops_driver.2 (List.replicate 1000 'a')
    (List.replicate 200 'b') false [] 5 (by decide) (by decide) (by decide)
    (by decide) (by decide) (by decide)

/-- C6.  Both Protocol A drivers perform at most `max_turns` provider calls
and hence at most `max_turns` text turns in every run (so they always
terminate); and with a backend that never emits the stop token and never
shrinks below the diminishing-returns threshold, a grounded-search run with
`max_turns = 3` performs exactly 3 provider calls and 3 text turns. -/
theorem grounded_search_turn_budget :
    (∀ (gscript : List GResp) (mt : Nat),
       (runGroundedSearch gscript mt).calls ≤ mt ∧
       (runGroundedSearch gscript mt).textTurns ≤ mt) ∧
    (∀ (wscript : List WResp) (mt : Nat),
       (runWebSearch wscript mt).calls ≤ mt ∧
       (runWebSearch wscript mt).textTurns ≤ mt) ∧
    (∀ (t1 t2 t3 : Str) (hc3 : Bool) (rest : List GResp),
       ¬ t1 = [] → ¬ t2 = [] → ¬ t3 = [] →
       containsStopToken t1 = false → containsStopToken t2 = false →
       containsStopToken t3 = false →
       3 * t1.length ≤ 10 * t2.length → 3 * t2.length ≤ 10 * t3.length →
       (runGroundedSearch
          (GResp.ok t1 true :: GResp.ok t2 true :: GResp.ok t3 hc3 :: rest) 3).calls = 3 ∧
       (runGroundedSearch
          (GResp.ok t1 true :: GResp.ok t2 true :: GResp.ok t3 hc3 :: rest) 3).textTurns = 3) := by
  refine ⟨?_, ?_, ?_⟩
  · intro gscript mt
    have h := runGroundedAux_bounds gscript mt [] 0 0 0
    unfold runGroundedSearch
    constructor <;> omega
  · intro wscript mt
    have h := runWebSearchAux_bounds wscript mt [] 0 0 0
    unfold runWebSearch
    constructor <;> omega
  · intro t1 t2 t3 hc3 rest ht1 ht2 ht3 hs1 hs2 hs3 hl1 hl2
    unfold runGroundedSearch
    rw [show (3 : Nat) = 2 + 1 from rfl]
    rw [runGroundedAux_cons_next _ _ _ _ _ _ ht1 hs1 (by simp [diminished])]
    rw [show (2 : Nat) = 1 + 1 from rfl]
    rw [runGroundedAux_cons_next _ _ _ _ _ _ ht2 hs2
      (by simp only [diminished, not_and]; omega)]
    cases hc3 with
    | true =>
      rw [runGroundedAux_cons_next _ _ _ _ _ _ ht3 hs3
        (by simp only [diminished, not_and]; omega)]
      simp [runGroundedAux]
    | false =>
      simp [runGroundedAux, ht3, hs3,
        show ¬ diminished t3.length t2.length by simp only [diminished, not_and]; omega]

/-- C6, witness: three steady-length responses, budget 3. -/
theorem grounded_search_turn_budget_witness :
    (runGroundedSearch [GResp.ok "first batch of findings".data true,
        GResp.ok "second batch of findings".data true,
        GResp.ok "third batch of findings".data false] 3).calls = 3 ∧
    (runGroundedSearch [GResp.ok "first batch of findings".data true,
        GResp.ok "second batch of findings".data true,
        GResp.ok "third batch of findings".data false] 3).textTurns = 3 :=
  grounded_search_turn_budget.2.2 "first batch of findings".data
    "second batch of findings".data "third batch of findings".data false []
    (by decide) (by decide) (by decide) (by decide) (by decide) (by decide)
    (by decide) (by decide)

theorem toolSynthesis_counts (s : List TResp) (acc : List Str) (ds : Bool)
    (tt sr calls : Nat) :
    (toolSynthesis s acc ds tt sr calls).textTurns = tt ∧
    (toolSynthesis s acc ds tt sr calls).searchRounds = sr ∧
    (toolSynthesis s acc ds tt sr calls).fatal = false := by
  unfold toolSynthesis
  split
  · cases s with
    | nil => simp
    | cons r rest => cases r <;> simp
  · simp

theorem toolSynthesis_skip (s : List TResp) (acc : List Str) (ds : Bool)
    (tt sr calls : Nat) (h : ¬ (acc = [] ∧ ds = true)) :
    toolSynthesis s acc ds tt sr calls = ⟨joinNN acc, tt, sr, calls, false⟩ := by
  unfold toolSynthesis
  rw [if_neg h]

theorem runToolAux_noBudget (mt : Nat) (script : List TResp)
    (tt sr : Nat) (acc : List Str) (ll : Nat) (ds : Bool) (calls : Nat)
    (h : ¬ (tt < mt ∧ sr < mt * 3)) :
    runToolAux mt script tt sr acc ll ds calls =
      toolSynthesis script acc ds tt sr calls := by
  rw [runToolAux.eq_def, if_neg h]

theorem runToolAux_toolRound (mt : Nat) {text : Str} {fcs : List Str}
    (rest : List TResp) (tt sr : Nat) (acc : List Str) (ll : Nat) (ds : Bool)
    (calls : Nat) (h : tt < mt ∧ sr < mt * 3) (hf : fcs ≠ []) :
    runToolAux mt (TResp.ok text fcs :: rest) tt sr acc ll ds calls =
      runToolAux mt rest tt (sr + 1) (if text = [] then acc else acc ++ [text])
        ll true (calls + 1) := by
  rw [runToolAux.eq_def, if_pos h]
  simp only [hf, ne_eq, not_false_iff, if_true]

theorem runToolAux_textTurn (mt : Nat) {text : Str} (rest : List TResp)
    (tt sr : Nat) (acc : List Str) (ll : Nat) (ds : Bool) (calls : Nat)
    (h : tt < mt ∧ sr < mt * 3) (ht : ¬ text = [])
    (hs : containsStopToken text = false) (hd : ¬ diminished text.length ll) :
    runToolAux mt (TResp.ok text [] :: rest) tt sr acc ll ds calls =
      runToolAux mt rest (tt + 1) sr (acc ++ [text]) text.length ds (calls + 1) := by
  rw [runToolAux.eq_def, if_pos h]
  simp [ht, hs, hd]

theorem runToolAux_textBreak (mt : Nat) {text : Str} (rest : List TResp)
    (tt sr : Nat) (acc : List Str) (ll : Nat) (ds : Bool) (calls : Nat)
    (h : tt < mt ∧ sr < mt * 3) (ht : ¬ text = [])
    (hstop : containsStopToken text = true ∨ diminished text.length ll) :
    runToolAux mt (TResp.ok text [] :: rest) tt sr acc ll ds calls =
      toolSynthesis rest (acc ++ [text]) ds (tt + 1) sr (calls + 1) := by
  rw [runToolAux.eq_def, if_pos h]
  rcases hstop with hs | hd
  · simp [ht, hs]
  · by_cases hs : containsStopToken text = true
    · simp [ht, hs]
    · rw [Bool.not_eq_true] at hs
      simp [ht, hs, hd]

theorem runToolAux_emptyText (mt : Nat) (rest : List TResp)
    (tt sr : Nat) (acc : List Str) (ll : Nat) (ds : Bool) (calls : Nat)
    (h : tt < mt ∧ sr < mt * 3) :
    runToolAux mt (TResp.ok [] [] :: rest) tt sr acc ll ds calls =
      if acc = [] then runToolAux mt rest tt sr acc ll ds (calls + 1)
      else toolSynthesis rest acc ds tt sr (calls + 1) := by
  rw [runToolAux.eq_def, if_pos h]
  by_cases ha : acc = []
  · simp [ha]
  · simp [ha]

theorem runToolAux_bounds (mt : Nat) : ∀ (script : List TResp)
    (tt sr : Nat) (acc : List Str) (ll : Nat) (ds : Bool) (calls : Nat),
    tt ≤ mt → sr ≤ mt * 3 →
    (runToolAux mt script tt sr acc ll ds calls).textTurns ≤ mt ∧
    (runToolAux mt script tt sr acc ll ds calls).searchRounds ≤ mt * 3 := by
  intro script
  induction script with
  | nil =>
    intro tt sr acc ll ds calls h1 h2
    by_cases hc : tt < mt ∧ sr < mt * 3
    · rw [runToolAux.eq_def, if_pos hc]
      dsimp only
      have h := toolSynthesis_counts [] acc ds tt sr calls
      omega
    · rw [runToolAux_noBudget _ _ _ _ _ _ _ _ hc]
      have h := toolSynthesis_counts [] acc ds tt sr calls
      omega
  | cons r rest ih =>
    intro tt sr acc ll ds calls h1 h2
    by_cases hc : tt < mt ∧ sr < mt * 3
    · cases r with
      | err fatal =>
        rw [runToolAux.eq_def, if_pos hc]
        dsimp only
        cases fatal with
        | true => simp; omega
        | false =>
          simp only [Bool.false_eq_true, if_false]
          have h := toolSynthesis_counts rest acc ds tt sr (calls + 1)
          omega
      | ok text fcs =>
        by_cases hf : fcs = []
        · subst hf
          by_cases ht : text = []
          · subst ht
            rw [runToolAux_emptyText mt rest tt sr acc ll ds calls hc]
            by_cases ha : acc = []
            · rw [if_pos ha]
              exact ih tt sr acc ll ds (calls + 1) h1 h2
            · rw [if_neg ha]
              have h := toolSynthesis_counts rest acc ds tt sr (calls + 1)
              omega
          · by_cases hs : containsStopToken text = true
            · rw [runToolAux_textBreak mt rest tt sr acc ll ds calls hc ht (Or.inl hs)]
              have h := toolSynthesis_counts rest (acc ++ [text]) ds (tt + 1) sr (calls + 1)
              omega
            · rw [Bool.not_eq_true] at hs
              by_cases hd : diminished text.length ll
              · rw [runToolAux_textBreak mt rest tt sr acc ll ds calls hc ht (Or.inr hd)]
                have h := toolSynthesis_counts rest (acc ++ [text]) ds (tt + 1) sr (calls + 1)
                omega
              · rw [runToolAux_textTurn mt rest tt sr acc ll ds calls hc ht hs hd]
                exact ih (tt + 1) sr (acc ++ [text]) text.length ds (calls + 1) (by omega) h2
        · rw [runToolAux_toolRound mt rest tt sr acc ll ds calls hc hf]
          exact ih tt (sr + 1) (if text = [] then acc else acc ++ [text]) ll true
            (calls + 1) h1 (by omega)
    · rw [runToolAux_noBudget _ _ _ _ _ _ _ _ hc]
      have h := toolSynthesis_counts (r :: rest) acc ds tt sr calls
      omega

/-- C3.  Tool-call rounds do not consume the text-turn budget: in every
run of the tool-based driver `text_turns ≤ max_turns` and
`search_rounds ≤ max_turns * 3` (first conjunct); and with
`max_turns = 1` and a backend producing two tool-call rounds followed by
one pure-text response, the driver performs all three provider calls and
ends with exactly 1 text turn and 2 search rounds (second conjunct). -/
theorem tool_round_accounting :
    (∀ (script : List TResp) (mt : Nat),
       (runToolBasedSearchGenai script mt).textTurns ≤ mt ∧
       (runToolBasedSearchGenai script mt).searchRounds ≤ mt * 3) ∧
    (∀ (t1 t2 t3 : Str) (q1 q2 : List Str) (rest : List TResp),
       q1 ≠ [] → q2 ≠ [] → ¬ t3 = [] →
       (runToolBasedSearchGenai
          (TResp.ok t1 q1 :: TResp.ok t2 q2 :: TResp.ok t3 [] :: rest) 1).textTurns = 1 ∧
       (runToolBasedSearchGenai
          (TResp.ok t1 q1 :: TResp.ok t2 q2 :: TResp.ok t3 [] :: rest) 1).searchRounds = 2 ∧
       (runToolBasedSearchGenai
          (TResp.ok t1 q1 :: TResp.ok t2 q2 :: TResp.ok t3 [] :: rest) 1).calls = 3 ∧
       (runToolBasedSearchGenai
          (TResp.ok t1 q1 :: TResp.ok t2 q2 :: TResp.ok t3 [] :: rest) 1).fatal = false) := by
  constructor
  · intro script mt
    unfold runToolBasedSearchGenai
    exact runToolAux_bounds mt script 0 0 [] 0 false 0 (by omega) (by omega)
  · intro t1 t2 t3 q1 q2 rest hq1 hq2 ht3
    unfold runToolBasedSearchGenai
    rw [runToolAux_toolRound 1 _ 0 0 [] 0 false 0 (by omega) hq1]
    rw [runToolAux_toolRound 1 _ 0 1 _ 0 true 1 (by omega) hq2]
    by_cases hs3 : containsStopToken t3 = true
    · rw [runToolAux_textBreak 1 rest 0 2 _ 0 true 2 (by omega) ht3 (Or.inl hs3)]
      rw [toolSynthesis_skip _ _ _ _ _ _ (by simp)]
      simp
    · rw [Bool.not_eq_true] at hs3
      rw [runToolAux_textTurn 1 rest 0 2 _ 0 true 2 (by omega) ht3 hs3
        (by simp [diminished])]
      rw [runToolAux_noBudget 1 rest 1 2 _ _ true 3 (by omega)]
      rw [toolSynthesis_skip _ _ _ _ _ _ (by simp)]
      simp

/-- C3, witness: two searching rounds then one final text round under a
budget of one text turn. -/
theorem tool_round_accounting_witness :
    (runToolBasedSearchGenai
       [TResp.ok [] ["web_search".data], TResp.ok [] ["web_search".data],
        TResp.ok "final summary of the findings".data []] 1).textTurns = 1 ∧
    (runToolBasedSearchGenai
       [TResp.ok [] ["web_search".data], TResp.ok [] ["web_search".data],
        TResp.ok "final summary of the findings".data []] 1).searchRounds = 2 ∧
    (runToolBasedSearchGenai
       [TResp.ok [] ["web_search".data], TResp.ok [] ["web_search".data],
        TResp.ok "final summary of the findings".data []] 1).calls = 3 ∧
    (runToolBasedSearchGenai
       [TResp.ok [] ["web_search".data], TResp.ok [] ["web_search".data],
        TResp.ok "final summary of the findings".data []] 1).fatal = false :=
  tool_round_accounting.2 [] [] "final summary of the findings".data
    ["web_search".data] ["web_search".data] [] (by decide) (by decide) (by decide)

theorem scanFatalTable_eq_find (errStr : Str) : ∀ ps : List FatalPattern,
    scanFatalTable errStr ps = ps.find? (patternMatches errStr) := by
  intro ps
  induction ps with
  | nil => rfl
  | cons p ps ih =>
    by_cases h : patternMatches errStr p = true
    · rw [scanFatalTable, if_pos h, List.find?_cons_of_pos _ h]
    · rw [scanFatalTable, if_neg h, List.find?_cons_of_neg _ (by simpa using h), ih]

/-- C7.  The error handler matches the exception string case-insensitively
against the ordered fatal-pattern table: it reports fatal exactly when some
table entry matches (first conjunct); with no match it emits exactly the
transient log line `API Error in {context}: {exception}` and reports
non-fatal (second conjunct); and for the first matching entry it reports
fatal and emits the modal notification when the console supports it, else
the message and error lines plus the optional help URL line (third
conjunct). -/
theorem api_error_classifier_spec (sf : Bool) (err ctx : Str) :
    ((handleApiError sf err ctx).1 = true ↔
      ∃ p ∈ fatalErrorTable, patternMatches err p = true) ∧
    ((handleApiError sf err ctx).1 = false →
      (handleApiError sf err ctx).2 =
        [ConsoleEvent.line ("API Error in ".data ++ ctx ++ ": ".data ++ err)]) ∧
    (∀ p : FatalPattern,
      List.find? (patternMatches err) fatalErrorTable = some p →
      (handleApiError sf err ctx).1 = true ∧
      (handleApiError sf err ctx).2 =
        (if sf then
           [ConsoleEvent.fatalModal (p.message ++ "\n\n".data ++ err) p.pattern p.helpUrl]
         else
           [ConsoleEvent.line p.message, ConsoleEvent.line err] ++
             (match p.helpUrl with
              | some u => [ConsoleEvent.line ("More info: ".data ++ u)]
              | none => []))) := by
  have hsc : scanFatalTable err fatalErrorTable =
      List.find? (patternMatches err) fatalErrorTable :=
    scanFatalTable_eq_find err fatalErrorTable
  cases hfind : List.find? (patternMatches err) fatalErrorTable with
  | none =>
    have hres : handleApiError sf err ctx =
        (false, [ConsoleEvent.line ("API Error in ".data ++ ctx ++ ": ".data ++ err)]) := by
      unfold handleApiError
      rw [hsc, hfind]
    refine ⟨?_, ?_, ?_⟩
    · rw [hres]
      simp only [Bool.false_eq_true, false_iff]
      rintro ⟨p, hp, hm⟩
      rw [List.find?_eq_none] at hfind
      exact absurd hm (by simpa using hfind p hp)
    · intro _
      rw [hres]
    · intro p hp
      exact absurd hp (by simp)
  | some p0 =>
    have hres : handleApiError sf err ctx =
        (if sf then
           (true, [ConsoleEvent.fatalModal (p0.message ++ "\n\n".data ++ err)
             p0.pattern p0.helpUrl])
         else
           (true, [ConsoleEvent.line p0.message, ConsoleEvent.line err] ++
             (match p0.helpUrl with
              | some u => [ConsoleEvent.line ("More info: ".data ++ u)]
              | none => []))) := by
      unfold handleApiError
      rw [hsc, hfind]
    refine ⟨?_, ?_, ?_⟩
    · rw [hres]
      cases sf with
      | true =>
        simp only [if_true, true_iff]
        exact ⟨p0, List.mem_of_find?_eq_some hfind, List.find?_some hfind⟩
      | false =>
        simp only [Bool.false_eq_true, if_false, true_iff]
        exact ⟨p0, List.mem_of_find?_eq_some hfind, List.find?_some hfind⟩
    · intro hfalse
      rw [hres] at hfalse
      cases sf <;> simp at hfalse
    · intro p hp
      injection hp with hp
      subst hp
      rw [hres]
      cases sf <;> simp

/-- C7, witness: a quota error (matched case-insensitively) on a console
without modal support, and an unmatched transient error. -/
theorem api_error_classifier_spec_witness :
    (handleApiError false "Error: INSUFFICIENT_QUOTA for project".data "Phase 1".data).1 =
      true ∧
    (handleApiError true "connection reset by peer".data "Phase 2".data).2 =
      [ConsoleEvent.line ("API Error in ".data ++ "Phase 2".data ++ ": ".data ++
        "connection reset by peer".data)] :=
  ⟨((api_error_classifier_spec false "Error: INSUFFICIENT_QUOTA for project".data
      "Phase 1".data).1).mpr ⟨⟨"insufficient_quota".data, "API quota exceeded".data,
        some "https://platform.openai.com/account/billing".data⟩, by decide, by decide⟩,
   (api_error_classifier_spec true "connection reset by peer".data "Phase 2".data).2.1
     (by decide)⟩

theorem processRound_eq {α σ : Type} (saveName : Str) (emptyObj : α)
    (cb : α → σ → σ) : ∀ (tcs : List (ECall α)) (st : σ) (items : List α)
    (fin : Bool),
    processRound saveName emptyObj cb tcs st items fin =
      (((tcs.filter (fun tc => decide (tc.name = saveName))).map
          (decodeArgs emptyObj)).foldl (fun s a => cb a s) st,
       items ++ (tcs.filter (fun tc => decide (tc.name = saveName))).map
          (decodeArgs emptyObj),
       fin || tcs.any
          (fun tc => decide (¬ tc.name = saveName ∧ tc.name = finishToolName))) := by
  intro tcs
  induction tcs with
  | nil => intro st items fin; simp [processRound]
  | cons tc rest ih =>
    intro st items fin
    by_cases hsave : tc.name = saveName
    · rw [processRound, if_pos hsave, ih]
      simp [hsave]
    · by_cases hfin : tc.name = finishToolName
      · rw [processRound, if_neg hsave, if_pos hfin, ih]
        have hns : ¬ finishToolName = saveName := fun h => hsave (hfin.trans h)
        rw [List.filter_cons, List.any_cons]
        simp [hsave, hfin, hns]
      · rw [processRound, if_neg hsave, if_neg hfin, ih]
        rw [List.filter_cons, List.any_cons]
        simp [hsave, hfin]

theorem runExtractionAux_eq {α σ : Type} (saveName : Str) (emptyObj : α)
    (cb : α → σ → σ) : ∀ (script : List (EResp α)) (n : Nat) (st : σ)
    (items : List α),
    runExtractionAux saveName emptyObj cb script n st items =
      ((savedArgs saveName emptyObj script n).foldl (fun s a => cb a s) st,
       items ++ savedArgs saveName emptyObj script n) := by
  intro script
  induction script with
  | nil =>
    intro n st items
    cases n <;> simp [runExtractionAux, savedArgs, processedCalls]
  | cons r rest ih =>
    intro n st items
    cases n with
    | zero => simp [runExtractionAux, savedArgs, processedCalls]
    | succ n =>
      cases r with
      | err fatal => simp [runExtractionAux, savedArgs, processedCalls]
      | ok tcs =>
        cases tcs with
        | nil => simp [runExtractionAux, savedArgs, processedCalls]
        | cons tc0 tcs =>
          rw [runExtractionAux, processRound_eq]
          dsimp only
          simp only [Bool.false_or]
          by_cases hany : ((tc0 :: tcs).any
              (fun tc => decide (¬ tc.name = saveName ∧ tc.name = finishToolName))) = true
          · rw [hany, if_pos rfl]
            rw [savedArgs]
            simp only [processedCalls]
            rw [if_pos hany]
          · rw [Bool.not_eq_true] at hany
            rw [hany, if_neg (by simp)]
            rw [ih n _ _]
            simp only [savedArgs]
            simp only [processedCalls]
            rw [if_neg (by rw [hany]; exact Bool.false_ne_true)]
            simp only [List.filter_append, List.map_append, List.foldl_append,
              List.append_assoc]

/-- C8.  Extraction-callback invariant: over any extraction run, the items
list returned by the loop is exactly the list of decoded arguments of the
processed tool calls whose name equals the save-function name, in call
order, and the final callback state is the initial state folded through
the callback once per such call in the same order — so the callback is
invoked exactly once per save call, each record appears exactly once in
the output, and calls with any other name neither invoke the callback nor
add to the items list. -/
theorem extraction_callback_invariant {α σ : Type} (saveName : Str)
    (emptyObj : α) (cb : α → σ → σ) (script : List (EResp α)) (maxTurns : Nat)
    (st : σ) :
    (runChatCompletionsExtraction saveName emptyObj cb script maxTurns st).2 =
      savedArgs saveName emptyObj script maxTurns ∧
    (runChatCompletionsExtraction saveName emptyObj cb script maxTurns st).1 =
      (savedArgs saveName emptyObj script maxTurns).foldl (fun s a => cb a s) st := by
  unfold runChatCompletionsExtraction
  rw [runExtractionAux_eq]
  simp

theorem foldl_append_singleton {β : Type} : ∀ (s : List β) (st : List β),
    s.foldl (fun l a => l ++ [a]) st = st ++ s := by
  intro s
  induction s with
  | nil => intro st; simp
  | cons a s ih =>
    intro st
    rw [List.foldl_cons, ih]
    simp

/-- C2, counterexample.  The claim says every `search` call returns the
full shared collaborator collection.  When phase 1 gathers no research
text (here: a fatal error on the first provider call), `search` returns
`[]` (core.py 912-914) even though the shared collection holds a
collaborator from an earlier call, so the returned list is not the shared
collection. -/
theorem search_empty_research_cex :
    (searchModel [⟨"Prior Researcher".data, "LUT University".data, some 4⟩]
      [GResp.err true] [] 10).returned = [] ∧
    (searchModel [⟨"Prior Researcher".data, "LUT University".data, some 4⟩]
      [GResp.err true] [] 10).shared =
      [⟨"Prior Researcher".data, "LUT University".data, some 4⟩] ∧
    ([] : List Collab) ≠
      [⟨"Prior Researcher".data, "LUT University".data, some 4⟩] := by
  refine ⟨by decide, by decide, by decide⟩

/-- C2, amended.  Whenever phase 1 produces non-empty research text,
`search` returns the full shared collaborator collection: the collection
as extended by this call, with the records of earlier calls still in front
of this call's extracted records.  When phase 1 produces no text, `search`
returns `[]` and leaves the shared collection untouched. -/
theorem search_returns_full_shared_collection (collabs : List Collab)
    (gscript : List GResp) (escript : List (EResp Collab)) (maxTurns : Nat) :
    ((runGroundedSearch gscript (maxTurns / 2)).output ≠ [] →
      (searchModel collabs gscript escript maxTurns).returned =
        (searchModel collabs gscript escript maxTurns).shared ∧
      (searchModel collabs gscript escript maxTurns).shared =
        collabs ++ savedArgs saveCollaboratorName emptyCollab escript 5) ∧
    ((runGroundedSearch gscript (maxTurns / 2)).output = [] →
      (searchModel collabs gscript escript maxTurns).returned = [] ∧
      (searchModel collabs gscript escript maxTurns).shared = collabs) := by
  constructor
  · intro hne
    unfold searchModel
    rw [if_neg hne]
    refine ⟨rfl, ?_⟩
    show phase2Extract escript collabs = _
    unfold phase2Extract runChatCompletionsExtraction
    rw [runExtractionAux_eq]
    exact foldl_append_singleton _ collabs
  · intro he
    unfold searchModel
    rw [if_pos he]
    exact ⟨rfl, rfl⟩

/-- C2, witness for the amended theorem: an earlier collaborator stays in
front of the newly extracted one, and the full collection is returned. -/
theorem search_returns_full_shared_collection_witness :
    (searchModel [⟨"Prior Researcher".data, "LUT University".data, some 4⟩]
      [GResp.ok "Detailed notes. SEARCH COMPLETE".data true]
      [EResp.ok [⟨saveCollaboratorName,
          some ⟨"New Researcher".data, "ETH".data, some 5⟩⟩,
        ⟨finishToolName, none⟩]] 10).returned =
      (searchModel [⟨"Prior Researcher".data, "LUT University".data, some 4⟩]
        [GResp.ok "Detailed notes. SEARCH COMPLETE".data true]
        [EResp.ok [⟨saveCollaboratorName,
            some ⟨"New Researcher".data, "ETH".data, some 5⟩⟩,
          ⟨finishToolName, none⟩]] 10).shared ∧
    (searchModel [⟨"Prior Researcher".data, "LUT University".data, some 4⟩]
      [GResp.ok "Detailed notes. SEARCH COMPLETE".data true]
      [EResp.ok [⟨saveCollaboratorName,
          some ⟨"New Researcher".data, "ETH".data, some 5⟩⟩,
        ⟨finishToolName, none⟩]] 10).shared =
      [⟨"Prior Researcher".data, "LUT University".data, some 4⟩] ++
        savedArgs saveCollaboratorName emptyCollab
          [EResp.ok [⟨saveCollaboratorName,
              some ⟨"New Researcher".data, "ETH".data, some 5⟩⟩,
            ⟨finishToolName, none⟩]] 5 :=
  (search_returns_full_shared_collection
    [⟨"Prior Researcher".data, "LUT University".data, some 4⟩]
    [GResp.ok "Detailed notes. SEARCH COMPLETE".data true]
    [EResp.ok [⟨saveCollaboratorName,
        some ⟨"New Researcher".data, "ETH".data, some 5⟩⟩,
      ⟨finishToolName, none⟩]] 10).1 (by decide)

theorem groupKeys_aux_sub : ∀ (l : List Collab) (ks : List Str),
    ks ⊆ l.foldl
      (fun ks c => if c.institution ∈ ks then ks else ks ++ [c.institution]) ks := by
  intro l
  induction l with
  | nil => intro ks; exact fun _ h => h
  | cons c l ih =>
    intro ks
    rw [List.foldl_cons]
    refine List.Subset.trans ?_ (ih _)
    by_cases h : c.institution ∈ ks
    · rw [if_pos h]
      exact fun _ hx => hx
    · rw [if_neg h]
      exact List.subset_append_left _ _

theorem groupKeys_aux_nodup : ∀ (l : List Collab) (ks : List Str), ks.Nodup →
    (l.foldl
      (fun ks c => if c.institution ∈ ks then ks else ks ++ [c.institution]) ks).Nodup := by
  intro l
  induction l with
  | nil => intro ks h; exact h
  | cons c l ih =>
    intro ks h
    rw [List.foldl_cons]
    refine ih _ ?_
    by_cases hm : c.institution ∈ ks
    · rw [if_pos hm]; exact h
    · rw [if_neg hm]
      simp [List.nodup_append, h, hm]

theorem groupKeys_aux_mem : ∀ (l : List Collab) (ks : List Str) (c : Collab),
    c ∈ l → c.institution ∈ l.foldl
      (fun ks c => if c.institution ∈ ks then ks else ks ++ [c.institution]) ks := by
  intro l
  induction l with
  | nil => intro ks c h; exact absurd h (List.not_mem_nil c)
  | cons a l ih =>
    intro ks c h
    rw [List.foldl_cons]
    rcases List.mem_cons.mp h with rfl | hmem
    · refine groupKeys_aux_sub l _ ?_
      by_cases hm : c.institution ∈ ks
      · rw [if_pos hm]; exact hm
      · rw [if_neg hm]
        exact List.mem_append_right _ (List.mem_singleton.mpr rfl)
    · exact ih _ c hmem

theorem groupKeys_nodup (l : List Collab) : (groupKeys l).Nodup :=
  groupKeys_aux_nodup l [] List.nodup_nil

theorem groupKeys_mem (l : List Collab) (c : Collab) (h : c ∈ l) :
    c.institution ∈ groupKeys l :=
  groupKeys_aux_mem l [] c h

theorem flatten_groups_perm : ∀ (ks : List Str) (s : List Collab), ks.Nodup →
    (∀ c ∈ s, c.institution ∈ ks) →
    List.Perm
      ((ks.map (fun k => s.filter (fun c => decide (c.institution = k)))).flatten) s := by
  intro ks
  induction ks with
  | nil =>
    intro s _ hcov
    have hs : s = [] := List.eq_nil_iff_forall_not_mem.mpr
      (fun c hc => by simpa using hcov c hc)
    subst hs
    simp
  | cons k ks ih =>
    intro s hnd hcov
    have hk : k ∉ ks := (List.nodup_cons.mp hnd).1
    have hnd2 : ks.Nodup := (List.nodup_cons.mp hnd).2
    have hmap : ∀ k2 ∈ ks,
        s.filter (fun c => decide (c.institution = k2)) =
        (s.filter (fun c => !(decide (c.institution = k)))).filter
          (fun c => decide (c.institution = k2)) := by
      intro k2 hk2
      rw [List.filter_filter]
      refine List.filter_congr ?_
      intro c _
      by_cases hc : c.institution = k2
      · have hne : ¬ k2 = k := fun he => hk (he ▸ hk2)
        simp [hc, hne]
      · simp [hc]
    have hcov2 : ∀ c ∈ s.filter (fun c => !(decide (c.institution = k))),
        c.institution ∈ ks := by
      intro c hc
      rcases List.mem_filter.mp hc with ⟨hcs, hck⟩
      rcases List.mem_cons.mp (hcov c hcs) with h | h
      · exact absurd h (by simpa using hck)
      · exact h
    rw [List.map_cons, List.flatten_cons]
    rw [List.map_congr_left hmap]
    refine List.Perm.trans
      (List.Perm.append_left _ (ih _ hnd2 hcov2)) ?_
    exact List.filter_append_perm _ s

/-- C9, counterexample.  The claim says `generate_report` always presents
collaborators in alignment-score-descending order, including the
broad-search case.  In broad mode the report groups by institution after
sorting (core.py 968-1017): with collaborators scored 5 and 3 at one
institution and 4 at another, the presented order is 5, 3, 4 — not
descending across institution groups. -/
theorem broad_report_not_sorted_cex :
    ¬ (reportOrder ["LUT University".data]
        [⟨"Alice".data, "X".data, some 5⟩,
         ⟨"Carol".data, "Y".data, some 4⟩,
         ⟨"Bob".data, "X".data, some 3⟩]).Pairwise collabGE := by
  decide

/-- C9, amended.  `generate_report` presents every collaborator exactly
once (a permutation of the collection); in flat mode the presented order
is alignment-score-descending regardless of insertion order; every
institution-filtered slice of the sorted list is score-descending; and in
broad mode the presentation is the concatenation of institution groups
(each group a score-descending filter of the sorted list, groups in first
appearance order), so the global order across groups need not be
descending. -/
theorem report_ordering_amended (insts : List Str) (l : List Collab) :
    List.Perm (reportOrder insts l) l ∧
    (insts = [] → (reportOrder insts l).Pairwise collabGE) ∧
    (∀ k, ((sortedCollabs l).filter
        (fun c => decide (c.institution = k))).Pairwise collabGE) ∧
    (insts ≠ [] → reportOrder insts l =
      ((groupKeys (sortedCollabs l)).map
        (fun k => (sortedCollabs l).filter
          (fun c => decide (c.institution = k)))).flatten) := by
  have hsorted : (sortedCollabs l).Pairwise collabGE :=
    List.sorted_insertionSort collabGE l
  have hperm : List.Perm (sortedCollabs l) l := List.perm_insertionSort collabGE l
  refine ⟨?_, ?_, ?_, ?_⟩
  · by_cases h : insts = []
    · unfold reportOrder
      rw [if_pos h]
      exact hperm
    · unfold reportOrder
      rw [if_neg h]
      refine List.Perm.trans ?_ hperm
      exact flatten_groups_perm (groupKeys (sortedCollabs l)) (sortedCollabs l)
        (groupKeys_nodup _) (groupKeys_mem _)
  · intro h
    unfold reportOrder
    rw [if_pos h]
    exact hsorted
  · intro k
    exact hsorted.sublist (List.filter_sublist _)
  · intro h
    unfold reportOrder
    rw [if_neg h]

/-- C9, witness for the amended theorem: the flat-mode order of the
counterexample collection is score-descending. -/
theorem report_ordering_amended_witness :
    (reportOrder []
      [⟨"Alice".data, "X".data, some 5⟩,
       ⟨"Carol".data, "Y".data, some 4⟩,
       ⟨"Bob".data, "X".data, some 3⟩]).Pairwise collabGE :=
  (report_ordering_amended []
    [⟨"Alice".data, "X".data, some 5⟩,
     ⟨"Carol".data, "Y".data, some 4⟩,
     ⟨"Bob".data, "X".data, some 3⟩]).2.1 rfl

/-- C10.  A collaborator record without the `alignment_score` key reads as
score 0 through `c.get("alignment_score", 0)` and renders with zero filled
stars (first conjunct); and in the sorted order that `generate_report` and
`print_shortlist` present (including any shortlist truncation), a
missing-score record is never placed before a record with a positive
score (second and third conjuncts).  Totality of `scoreOf` and `starsFor`
embeds the fact that presentation never raises on the missing key. -/
theorem missing_score_treated_as_zero :
    (∀ c : Collab, c.alignmentScore = none →
      scoreOf c = 0 ∧ starsFor (scoreOf c) = "☆☆☆☆☆".data) ∧
    (∀ l : List Collab, (sortedCollabs l).Pairwise
      (fun a b => a.alignmentScore = none → scoreOf b = 0)) ∧
    (∀ (l : List Collab) (topN : Nat), (shortlistRows l topN).Pairwise
      (fun a b => a.alignmentScore = none → scoreOf b = 0)) := by
  have key : ∀ l : List Collab, (sortedCollabs l).Pairwise
      (fun a b => a.alignmentScore = none → scoreOf b = 0) := by
    intro l
    have hsorted : (sortedCollabs l).Pairwise collabGE :=
      List.sorted_insertionSort collabGE l
    refine hsorted.imp ?_
    intro a b hge hnone
    have ha : scoreOf a = 0 := by simp [scoreOf, hnone]
    unfold collabGE at hge
    omega
  refine ⟨?_, key, ?_⟩
  · intro c hnone
    refine ⟨by simp [scoreOf, hnone], ?_⟩
    simp [scoreOf, hnone]
    decide
  · intro l topN
    exact (key l).sublist (List.take_sublist _ _)

/-- C10, witness: a record with the score key absent reads as 0 and
renders five empty stars. -/
theorem missing_score_treated_as_zero_witness :
    scoreOf ⟨"Nameless".data, "X".data, none⟩ = 0 ∧
    starsFor (scoreOf ⟨"Nameless".data, "X".data, none⟩) = "☆☆☆☆☆".data :=
  missing_score_treated_as_zero.1 ⟨"Nameless".data, "X".data, none⟩ rfl
